import Mathlib

/-!
Shallow embedding of the wimg-cli image pipeline (src/main.rs): path
sandboxing, fingerprinting, manifest merge and the orchestrating run loop,
together with theorems settling the specification claims.
-/

namespace WCli

/-- Raw byte strings are lists of naturals (each intended `< 256`). -/
abbrev Bytes := List Nat

/-- A filesystem path: an absolute flag plus the component sequence,
mirroring Rust `PathBuf` components. -/
structure FsPath where
  absolute : Bool
  components : List String
deriving DecidableEq

/-- `PathBuf::join`: an absolute right operand replaces the left. -/
def FsPath.join (p q : FsPath) : FsPath :=
  if q.absolute then q else ⟨p.absolute, p.components ++ q.components⟩

/-- Boolean component-list prefix test (used by `starts_with`). -/
def isPre : List String → List String → Bool
  | [], _ => true
  | _ :: _, [] => false
  | a :: as, b :: bs => a == b && isPre as bs

/-- Rust `Path::starts_with`: literal component-wise prefix, no `..`
normalization. -/
def FsPath.startsWith (p base : FsPath) : Bool :=
  p.absolute == base.absolute && isPre base.components p.components

/-- Rust `Path::strip_prefix` (on the success path): drop the base's
components. -/
def FsPath.stripBase (p base : FsPath) : FsPath :=
  ⟨false, p.components.drop base.components.length⟩

/-- One step of POSIX-style `..` resolution. -/
def normStep (stack : List String) (c : String) : List String :=
  if c = ".." then stack.dropLast else stack ++ [c]

/-- The resolved form of a path as the operating system's file lookup sees
it: `..` components pop the preceding component. -/
def FsPath.normalize (p : FsPath) : FsPath :=
  ⟨p.absolute, p.components.foldl normStep []⟩

/-- Split a component at its last dot: characters before it, and the
extension after it (`none` when there is no dot). -/
def splitExtAux : List Char → List Char × Option (List Char)
  | [] => ([], none)
  | c :: rest =>
    match splitExtAux rest with
    | (stem, some e) => (c :: stem, some e)
    | (stem, none) => if c = '.' then ([], some stem) else (c :: stem, none)

/-- Rust's `file_stem`/`extension` split: the last dot separates stem and
extension, except that a dot in first position (hidden files) does not
start an extension. -/
def splitFileName (s : String) : String × Option String :=
  match splitExtAux s.toList with
  | (_, none) => (s, none)
  | (stem, some e) => if stem = [] then (s, none) else (String.mk stem, some (String.mk e))

def fileStem (s : String) : String := (splitFileName s).1

def fileExt (s : String) : Option String := (splitFileName s).2

def FsPath.lastComponent (p : FsPath) : String := p.components.getLast?.getD ""

/-- Rust `with_file_name`: replace the final component. -/
def FsPath.withFileName (p : FsPath) (name : String) : FsPath :=
  ⟨p.absolute, p.components.dropLast ++ [name]⟩

/-- Rust `set_extension`: replace the final component's extension (empty
string removes it). -/
def FsPath.withExtension (p : FsPath) (e : String) : FsPath :=
  if p.components.isEmpty then p
  else p.withFileName (if e = "" then fileStem p.lastComponent
    else fileStem p.lastComponent ++ "." ++ e)

def FsPath.parentDir (p : FsPath) : FsPath := ⟨p.absolute, p.components.dropLast⟩

/-- `to_string_lossy` on our component model. -/
def FsPath.render (p : FsPath) : String :=
  (if p.absolute then "/" else "") ++ String.intercalate "/" p.components

/-- Wrap at the `u64` width, where the Rust code computes on `u64`. -/
def u64 (n : Nat) : Nat := n % 2 ^ 64

/-- `u64::to_be_bytes`: the eight big-endian bytes. -/
def toBeBytes (n : Nat) : List Nat :=
  [n / 2 ^ 56 % 256, n / 2 ^ 48 % 256, n / 2 ^ 40 % 256, n / 2 ^ 32 % 256,
    n / 2 ^ 24 % 256, n / 2 ^ 16 % 256, n / 2 ^ 8 % 256, n % 256]

/-- Lower-case hexadecimal digit for a value `< 16`. -/
def hexDigit (n : Nat) : Char := if n < 10 then Char.ofNat (48 + n) else Char.ofNat (87 + n)

def hexByte (b : Nat) : List Char := [hexDigit (b / 16), hexDigit (b % 16)]

/-- `hex::encode`: two lower-case hex digits per byte. -/
def hexEncode (bs : List Nat) : String := String.mk ((bs.map hexByte).flatten)

/-- UTF-8 bytes of a string (`str::as_bytes`). -/
def strBytes (s : String) : Bytes := s.toUTF8.toList.map (fun b => b.toNat)

/-- The fingerprint computation of `main` (src/main.rs lines 236-248):
seed is the wrapping sum of the resize seed and the active format's seed;
the keyed hash of the source bytes, plus — when a variant is active — the
keyed hash of the variant's UTF-8 bytes, with wrapping `u64` addition. -/
def fingerprint (hash : Bytes → Nat → Nat) (resizeSeed formatSeed : Nat) (data : Bytes)
    (variant : Option String) : Nat :=
  let seed := u64 (resizeSeed + formatSeed)
  let h := u64 (hash data seed)
  match variant with
  | none => h
  | some v => u64 (h + u64 (hash (strBytes v) seed))

/-- The manifest: ordered three-level mapping, image name → variant →
format extension → relative output path (`BTreeMap` nesting). -/
abbrev Manifest := List (String × List (String × List (String × String)))

def alLookup {β : Type} (k : String) : List (String × β) → Option β
  | [] => none
  | (k', v) :: rest => if k = k' then some v else alLookup k rest

/-- `BTreeMap::insert`: replace the value at an existing key, otherwise
insert in key order. -/
def alInsert {β : Type} (k : String) (v : β) : List (String × β) → List (String × β)
  | [] => [(k, v)]
  | (k', v') :: rest =>
    if k = k' then (k, v) :: rest
    else if k < k' then (k, v) :: (k', v') :: rest
    else (k', v') :: alInsert k v rest

/-- src/main.rs lines 289-300: `entry(name).or_default()`,
`entry(variant).or_default()`, `formats.insert(ext, path)`. -/
def recordLeaf (m : Manifest) (name variant ext path : String) : Manifest :=
  let variants := (alLookup name m).getD []
  let formats := (alLookup variant variants).getD []
  alInsert name (alInsert variant (alInsert ext path formats) variants) m

def leafLookup (m : Manifest) (name variant ext : String) : Option String :=
  ((alLookup name m).bind (alLookup variant)).bind (alLookup ext)

/-- The four output formats of `--format`. -/
inductive OutputFormat where
  | avif
  | jpeg
  | png
  | webp
deriving DecidableEq

/-- `OutputFormat::ext`. -/
def OutputFormat.ext : OutputFormat → String
  | .avif => "avif"
  | .jpeg => "jpg"
  | .png => "png"
  | .webp => "webp"

/-- The parsed command-line arguments (struct `Args`). -/
structure Args where
  images : List FsPath
  outDir : FsPath
  baseDir : Option FsPath
  width : Nat
  height : Nat
  variant : Option String
  manifest : Option FsPath
  format : List OutputFormat
  jpegQuality : Nat
  webpQuality : Nat
  avifQuality : Nat
  avifSpeed : Nat

/-- The `wimg` crate collaborators: decoders, resize, encoders, the keyed
hash, and the per-stage seed constants, over an abstract image type. -/
structure WimgApi (Image : Type) where
  jpegDecode : Bytes → Except String Image
  pngDecode : Bytes → Except String Image
  resize : Image → Nat → Nat → Bool → Except String Image
  avifEncode : Image → Nat → Nat → Except String Bytes
  jpegEncode : Image → Nat → Except String Bytes
  pngEncode : Image → Except String Bytes
  webpEncode : Image → Nat → Except String Bytes
  hash : Bytes → Nat → Nat
  resizeSeed : Nat
  avifSeed : Nat
  jpegSeed : Nat
  pngSeed : Nat
  webpSeed : Nat

/-- The active format's stage seed (the match at src/main.rs lines 238-243). -/
def fmtSeed {Image : Type} (w : WimgApi Image) : OutputFormat → Nat
  | .avif => w.avifSeed
  | .jpeg => w.jpegSeed
  | .png => w.pngSeed
  | .webp => w.webpSeed

/-- The encoder dispatch (src/main.rs lines 270-275). -/
def encodeFmt {Image : Type} (w : WimgApi Image) (args : Args) (img : Image) :
    OutputFormat → Except String Bytes
  | .avif => w.avifEncode img args.avifQuality args.avifSpeed
  | .jpeg => w.jpegEncode img args.jpegQuality
  | .png => w.pngEncode img
  | .webp => w.webpEncode img args.webpQuality

/-- The ambient filesystem and serde, with file lookups keyed by resolved
absolute component lists. -/
structure Env where
  currentDir : FsPath
  isDir : List String → Bool
  isFile : List String → Bool
  readFile : List String → Option Bytes
  parseManifest : Bytes → Option Manifest
  mkDirOk : FsPath → Bool
  writeOk : FsPath → Bool
  createOk : FsPath → Bool

/-- Externally visible effects of a run, in order. -/
inductive Event where
  | resizeCall (width height : Nat) (aspect : Bool)
  | mkDirAll (p : FsPath)
  | writeFile (p : FsPath) (data : Bytes)
  | writeManifest (p : FsPath) (m : Manifest)
deriving DecidableEq

def Event.isManifestWrite : Event → Bool
  | .writeManifest _ _ => true
  | _ => false

def Event.isResizeCall : Event → Bool
  | .resizeCall _ _ _ => true
  | _ => false

def Event.isFileWrite : Event → Bool
  | .writeFile _ _ => true
  | _ => false

/-- The fatal errors (each a `log::error!` + `process::exit(1)` site). -/
inductive RunError where
  | noFormat
  | invalidBaseDir
  | manifestVariantMissing
  | manifestReadFailed
  | manifestParseFailed
  | notAFile (p : FsPath)
  | outsideBase (p : FsPath)
  | noImages
  | readFailed (p : FsPath)
  | unsupportedFormat (e : String)
  | missingExtension (p : FsPath)
  | decodeFailed (msg : String)
  | resizeFailed (msg : String)
  | mkDirFailed
  | encodeFailed (msg : String)
  | writeFailed (p : FsPath)
  | manifestCreateFailed
deriving DecidableEq

/-- Join a relative path onto the current directory (absolute paths pass
through) — the resolution the code performs before filesystem access. -/
def absolutize (env : Env) (p : FsPath) : FsPath :=
  if p.absolute then p else env.currentDir.join p

/-- Base-directory validation (src/main.rs lines 104-117). -/
def resolveBase (env : Env) (args : Args) : Except RunError FsPath :=
  match args.baseDir with
  | some b =>
    let abs := absolutize env b
    if env.isDir abs.normalize.components then .ok abs else .error .invalidBaseDir
  | none => .ok env.currentDir

/-- Manifest loading (src/main.rs lines 120-154): requires `--variant`,
starts empty when the file is absent, fatal on unreadable or unparsable
contents. -/
def loadManifest (env : Env) (args : Args) : Except RunError (Option (Manifest × String)) :=
  match args.manifest with
  | none => .ok none
  | some path =>
    match args.variant with
    | none => .error .manifestVariantMissing
    | some variant =>
      let abs := absolutize env path
      if env.isFile abs.normalize.components then
        match env.readFile abs.normalize.components with
        | none => .error .manifestReadFailed
        | some data =>
          match env.parseManifest data with
          | none => .error .manifestParseFailed
          | some m => .ok (some (m, variant))
      else .ok (some ([], variant))

/-- Input resolution for a single image (src/main.rs lines 159-177): join
relative candidates onto the current directory, require an existing file,
then require the base to be a literal component prefix. -/
def resolveImage (env : Env) (base : FsPath) (p : FsPath) : Except RunError FsPath :=
  if !env.isFile (absolutize env p).normalize.components then
    .error (.notAFile (absolutize env p))
  else if (absolutize env p).absolute && !(absolutize env p).startsWith base then
    .error (.outsideBase (absolutize env p))
  else .ok (absolutize env p)

/-- Resolve all inputs, stopping at the first failure. -/
def resolveImages (env : Env) (base : FsPath) : List FsPath → Except RunError (List FsPath)
  | [] => .ok []
  | p :: rest =>
    match resolveImage env base p with
    | .error e => .error e
    | .ok q =>
      match resolveImages env base rest with
      | .error e => .error e
      | .ok qs => .ok (q :: qs)

/-- Output path derivation for one format (src/main.rs lines 250-256):
append `-<hex fingerprint>` to the stem, then set the format extension. -/
def nameFor (hash : Bytes → Nat → Nat) (resizeSeed formatSeed : Nat) (data : Bytes)
    (variant : Option String) (outFile : FsPath) (e : String) : FsPath :=
  (outFile.withFileName (fileStem outFile.lastComponent ++ "-" ++
    hexEncode (toBeBytes (fingerprint hash resizeSeed formatSeed data variant)))).withExtension e

/-- Encode-and-write stage shared by `processFormat`'s two entry branches
(src/main.rs lines 270-300): encode, write the output file, and record
into the manifest when one is active. -/
def writeStage {Image : Type} (env : Env) (w : WimgApi Image) (args : Args) (img : Image)
    (name : String) (ms : Option (Manifest × String)) (f : OutputFormat) (outF : FsPath)
    (evs : List Event) : List Event × Except RunError (Option (Manifest × String)) :=
  match encodeFmt w args img f with
  | .error e => (evs, .error (.encodeFailed e))
  | .ok out =>
    if env.writeOk outF then
      (evs ++ [Event.writeFile outF out],
        .ok (ms.map (fun mv =>
          (recordLeaf mv.1 name mv.2 f.ext ((outF.stripBase args.outDir).render), mv.2))))
    else (evs, .error (.writeFailed outF))

/-- Process one output format of one image (src/main.rs lines 236-300):
fingerprint, derive the output path, create its parent directory, encode,
write, and record into the manifest when one is active. -/
def processFormat {Image : Type} (env : Env) (w : WimgApi Image) (args : Args) (data : Bytes)
    (img : Image) (name : String) (outFile : FsPath) (ms : Option (Manifest × String))
    (f : OutputFormat) : List Event × Except RunError (Option (Manifest × String)) :=
  match (nameFor w.hash w.resizeSeed (fmtSeed w f) data (ms.map Prod.snd) outFile
      f.ext).components with
  | [] =>
    writeStage env w args img name ms f
      (nameFor w.hash w.resizeSeed (fmtSeed w f) data (ms.map Prod.snd) outFile f.ext) []
  | _ :: _ =>
    if env.mkDirOk (nameFor w.hash w.resizeSeed (fmtSeed w f) data (ms.map Prod.snd) outFile
        f.ext).parentDir then
      writeStage env w args img name ms f
        (nameFor w.hash w.resizeSeed (fmtSeed w f) data (ms.map Prod.snd) outFile f.ext)
        [Event.mkDirAll (nameFor w.hash w.resizeSeed (fmtSeed w f) data (ms.map Prod.snd)
          outFile f.ext).parentDir]
    else ([], .error .mkDirFailed)

/-- Fold `processFormat` over the requested formats, stopping at the first
failure and threading the manifest state. -/
def processFormats {Image : Type} (env : Env) (w : WimgApi Image) (args : Args) (data : Bytes)
    (img : Image) (name : String) (outFile : FsPath) :
    Option (Manifest × String) → List OutputFormat →
    List Event × Except RunError (Option (Manifest × String))
  | ms, [] => ([], .ok ms)
  | ms, f :: rest =>
    match processFormat env w args data img name outFile ms f with
    | (evs, .error e) => (evs, .error e)
    | (evs, .ok ms') =>
      (evs ++ (processFormats env w args data img name outFile ms' rest).1,
        (processFormats env w args data img name outFile ms' rest).2)

/-- Decode dispatch keyed on the file extension (src/main.rs lines 197-211). -/
def decodeByExt {Image : Type} (w : WimgApi Image) (p : FsPath) (data : Bytes) :
    Except RunError Image :=
  match fileExt p.lastComponent with
  | some e =>
    if e = "jpg" then (w.jpegDecode data).mapError RunError.decodeFailed
    else if e = "png" then (w.pngDecode data).mapError RunError.decodeFailed
    else .error (.unsupportedFormat e)
  | none => .error (.missingExtension p)

/-- Process one resolved image (src/main.rs lines 186-302): read its bytes,
decode, resize once (aspect flag hard-coded `true`), then fan out over the
requested formats. -/
def processImage {Image : Type} (env : Env) (w : WimgApi Image) (args : Args) (base : FsPath)
    (ms : Option (Manifest × String)) (p : FsPath) :
    List Event × Except RunError (Option (Manifest × String)) :=
  match env.readFile p.normalize.components with
  | none => ([], .error (.readFailed p))
  | some data =>
    match decodeByExt w p data with
    | .error e => ([], .error e)
    | .ok img =>
      match w.resize img args.width args.height true with
      | .error e => ([Event.resizeCall args.width args.height true], .error (.resizeFailed e))
      | .ok img2 =>
        (Event.resizeCall args.width args.height true ::
          (processFormats env w args data img2 ((p.stripBase base).withExtension "").render
            (args.outDir.join (p.stripBase base)) ms args.format).1,
          (processFormats env w args data img2 ((p.stripBase base).withExtension "").render
            (args.outDir.join (p.stripBase base)) ms args.format).2)

/-- Fold `processImage` over the resolved inputs. -/
def processImages {Image : Type} (env : Env) (w : WimgApi Image) (args : Args) (base : FsPath) :
    Option (Manifest × String) → List FsPath →
    List Event × Except RunError (Option (Manifest × String))
  | ms, [] => ([], .ok ms)
  | ms, p :: rest =>
    match processImage env w args base ms p with
    | (evs, .error e) => (evs, .error e)
    | (evs, .ok ms') =>
      (evs ++ (processImages env w args base ms' rest).1,
        (processImages env w args base ms' rest).2)

/-- The whole run of `main` (src/main.rs): validation, manifest load,
input resolution, processing loop, and the final single manifest write. -/
def run {Image : Type} (env : Env) (w : WimgApi Image) (args : Args) :
    List Event × Except RunError Unit :=
  if args.format.isEmpty then ([], .error .noFormat)
  else
    match resolveBase env args with
    | .error e => ([], .error e)
    | .ok base =>
      match loadManifest env args with
      | .error e => ([], .error e)
      | .ok ms =>
        match resolveImages env base args.images with
        | .error e => ([], .error e)
        | .ok images =>
          if images.isEmpty then ([], .error .noImages)
          else
            match processImages env w args base ms images with
            | (evs, .error e) => (evs, .error e)
            | (evs, .ok msFinal) =>
              match msFinal, args.manifest with
              | some (m, _), some mpath =>
                if env.createOk (absolutize env mpath) then
                  (evs ++ [Event.writeManifest mpath m], .ok ())
                else (evs, .error .manifestCreateFailed)
              | _, _ => (evs, .ok ())

/-! ### Auxiliary notions used by the claim statements -/

/-- `c` is one of the sixteen lower-case hexadecimal digit characters. -/
def isLowerHexDigit (c : Char) : Bool :=
  (48 ≤ c.toNat && c.toNat ≤ 57) || (97 ≤ c.toNat && c.toNat ≤ 102)

/-- Value of a lower-case hexadecimal digit character. -/
def hexCharVal (c : Char) : Nat := if 97 ≤ c.toNat then c.toNat - 87 else c.toNat - 48

/-- The number a big-endian hex-digit string denotes. -/
def fromHexChars (l : List Char) : Nat := l.foldl (fun acc c => 16 * acc + hexCharVal c) 0

/-- The number a big-endian byte string denotes. -/
def byteVal (bs : List Nat) : Nat := bs.foldl (fun acc b => 256 * acc + b) 0

/-- The component contains no dot. -/
def noDot (s : String) : Bool := s.data.all (fun c => !(c == '.'))

/-! ### Concrete fixtures used by witnesses and counterexamples -/

/-- A concrete collaborator instantiation with trivial codecs and the
constant-zero hash. -/
def wC : WimgApi Nat where
  jpegDecode := fun _ => .ok 0
  pngDecode := fun _ => .ok 0
  resize := fun i _ _ _ => .ok i
  avifEncode := fun _ _ _ => .ok [1]
  jpegEncode := fun _ _ => .ok [1]
  pngEncode := fun _ => .ok [1, 2]
  webpEncode := fun _ _ => .ok [1]
  hash := fun _ _ => 0
  resizeSeed := 1
  avifSeed := 2
  jpegSeed := 3
  pngSeed := 5
  webpSeed := 7

/-- A filesystem with one source image `/work/photos/cat.png`. -/
def envC : Env where
  currentDir := ⟨true, ["work"]⟩
  isDir := fun l => l == ["work", "photos"] || l == ["work"]
  isFile := fun l => l == ["work", "photos", "cat.png"]
  readFile := fun l => if l == ["work", "photos", "cat.png"] then some [9, 9] else none
  parseManifest := fun _ => none
  mkDirOk := fun _ => true
  writeOk := fun _ => true
  createOk := fun _ => true

/-- Simple-mode arguments: resize `photos/cat.png` to 100x100 PNG into
`dist/`, no manifest. -/
def argsC : Args where
  images := [⟨false, ["photos", "cat.png"]⟩]
  outDir := ⟨false, ["dist"]⟩
  baseDir := some ⟨false, ["photos"]⟩
  width := 100
  height := 100
  variant := none
  manifest := none
  format := [.png]
  jpegQuality := 80
  webpQuality := 80
  avifQuality := 60
  avifSpeed := 5

/-- Manifest-mode variant of `argsC`. -/
def argsM : Args := { argsC with variant := some "thumb", manifest := some ⟨false, ["m.json"]⟩ }

/-- No output format requested. -/
def argsNoFmt : Args := { argsC with format := [] }

/-- Manifest requested without a variant name. -/
def argsNoVar : Args := { argsC with manifest := some ⟨false, ["m.json"]⟩, variant := none }

/-- A filesystem where the current directory IS the base directory and the
escaping file `/work/outside.png` exists. -/
def envX : Env := { envC with
  currentDir := ⟨true, ["work", "photos"]⟩,
  isFile := fun l => l == ["work", "outside.png"],
  readFile := fun l => if l == ["work", "outside.png"] then some [9] else none }

def baseX : FsPath := ⟨true, ["work", "photos"]⟩

/-- Arguments naming the traversal candidate `../outside.png`. -/
def argsX : Args := { argsC with images := [⟨false, ["..", "outside.png"]⟩], baseDir := none }

/-- A filesystem where `/work/m.json` exists and parses to a one-leaf
manifest. -/
def envP : Env := { envC with
  isFile := fun l => l == ["work", "photos", "cat.png"] || l == ["work", "m.json"],
  readFile := fun l =>
    if l == ["work", "photos", "cat.png"] then some [9, 9]
    else if l == ["work", "m.json"] then some [123, 125] else none,
  parseManifest := fun d =>
    if d == [123, 125] then some [("a", [("b", [("c", "d")])])] else none }

/-- A filesystem where `/work/m.json` exists but does not parse. -/
def envBad : Env := { envP with parseManifest := fun _ => none }

/-- Replace one format's stage seed, leaving every other collaborator
field unchanged. -/
def setFmtSeed {Image : Type} (w : WimgApi Image) : OutputFormat → Nat → WimgApi Image
  | .avif, n => { w with avifSeed := n }
  | .jpeg, n => { w with jpegSeed := n }
  | .png, n => { w with pngSeed := n }
  | .webp, n => { w with webpSeed := n }


/-! ### Association-list (`BTreeMap`) lemmas -/

theorem alLookup_alInsert_self {β : Type} (k : String) (v : β) (l : List (String × β)) :
    alLookup k (alInsert k v l) = some v := by
  induction l with
  | nil => simp [alInsert, alLookup]
  | cons hd tl ih =>
    obtain ⟨k', v'⟩ := hd
    by_cases h : k = k'
    · simp [alInsert, h, alLookup]
    · by_cases h2 : k < k'
      · simp [alInsert, h, h2, alLookup]
      · simp [alInsert, h, h2, alLookup, ih]

theorem alLookup_alInsert_ne {β : Type} (j k : String) (v : β) (l : List (String × β))
    (h : j ≠ k) : alLookup j (alInsert k v l) = alLookup j l := by
  induction l with
  | nil => simp [alInsert, alLookup, h]
  | cons hd tl ih =>
    obtain ⟨k', v'⟩ := hd
    by_cases h1 : k = k'
    · subst h1
      simp [alInsert, alLookup, h]
    · by_cases h2 : k < k'
      · simp [alInsert, h1, h2, alLookup, h]
      · simp [alInsert, h1, h2, alLookup, ih]

/-! ### Path and string lemmas -/

theorem isPre_append_drop : ∀ (a b : List String), isPre a b = true →
    a ++ b.drop a.length = b
  | [], _, _ => rfl
  | _ :: _, [], h => by simp [isPre] at h
  | x :: xs, y :: ys, h => by
    rw [isPre] at h
    rw [Bool.and_eq_true, beq_iff_eq] at h
    obtain ⟨h1, h2⟩ := h
    subst h1
    simpa using isPre_append_drop xs ys h2

theorem splitExtAux_noDot : ∀ (l : List Char), (∀ c ∈ l, c ≠ '.') →
    splitExtAux l = (l, none)
  | [], _ => rfl
  | c :: rest, h => by
    have hr := splitExtAux_noDot rest (fun x hx => h x (List.mem_cons_of_mem c hx))
    have hc : c ≠ '.' := h c (List.mem_cons_self c rest)
    simp [splitExtAux, hr, hc]

theorem noDot_chars {s : String} (h : noDot s = true) : ∀ c ∈ s.data, c ≠ '.' := by
  intro c hc
  have := List.all_eq_true.mp h c hc
  simpa using this

theorem fileStem_of_noDot (s : String) (h : noDot s = true) : fileStem s = s := by
  have hs : splitExtAux s.data = (s.data, none) := splitExtAux_noDot s.data (noDot_chars h)
  simp [fileStem, splitFileName, hs]

/-! ### Hex rendering lemmas -/

theorem hexDigit_ne_dot : ∀ k, k < 16 → hexDigit k ≠ '.' := by decide

theorem isLowerHexDigit_hexDigit : ∀ k, k < 16 → isLowerHexDigit (hexDigit k) = true := by decide

theorem hexCharVal_hexDigit : ∀ k, k < 16 → hexCharVal (hexDigit k) = k := by decide

theorem toBeBytes_lt (n : Nat) : ∀ b ∈ toBeBytes n, b < 256 := by
  intro b hb
  simp [toBeBytes] at hb
  rcases hb with h | h | h | h | h | h | h | h <;> omega

theorem mem_hexEncode_toBeBytes (n : Nat) (c : Char)
    (h : c ∈ (hexEncode (toBeBytes n)).data) : ∃ k, k < 16 ∧ c = hexDigit k := by
  have h' : c ∈ ((toBeBytes n).map hexByte).flatten := h
  rw [List.mem_flatten] at h'
  obtain ⟨l, hl, hcl⟩ := h'
  rw [List.mem_map] at hl
  obtain ⟨b, hb, rfl⟩ := hl
  have hb256 : b < 256 := toBeBytes_lt n b hb
  simp [hexByte] at hcl
  rcases hcl with rfl | rfl
  · exact ⟨b / 16, by omega, rfl⟩
  · exact ⟨b % 16, by omega, rfl⟩

theorem hexEncode_toBeBytes_lower (n : Nat) :
    (hexEncode (toBeBytes n)).data.all isLowerHexDigit = true := by
  rw [List.all_eq_true]
  intro c hc
  obtain ⟨k, hk, rfl⟩ := mem_hexEncode_toBeBytes n c hc
  exact isLowerHexDigit_hexDigit k hk

theorem hexEncode_toBeBytes_noDot (n : Nat) :
    noDot (hexEncode (toBeBytes n)) = true := by
  rw [noDot, List.all_eq_true]
  intro c hc
  obtain ⟨k, hk, rfl⟩ := mem_hexEncode_toBeBytes n c hc
  simpa using hexDigit_ne_dot k hk

theorem hexEncode_toBeBytes_length (n : Nat) : (hexEncode (toBeBytes n)).length = 16 := by
  show ((toBeBytes n).map hexByte).flatten.length = 16
  simp [toBeBytes, hexByte]

theorem fromHexChars_aux (l : List Char) : ∀ a : Nat,
    l.foldl (fun acc c => 16 * acc + hexCharVal c) a = a * 16 ^ l.length + fromHexChars l := by
  induction l with
  | nil => intro a; simp [fromHexChars]
  | cons c l ih =>
    intro a
    have h1 := ih (16 * a + hexCharVal c)
    have h2 := ih (16 * 0 + hexCharVal c)
    simp only [List.foldl_cons, List.length_cons, fromHexChars] at h1 h2 ⊢
    rw [h1, h2]
    ring

theorem fromHexChars_append (l1 l2 : List Char) :
    fromHexChars (l1 ++ l2) = fromHexChars l1 * 16 ^ l2.length + fromHexChars l2 := by
  rw [fromHexChars, List.foldl_append]
  exact fromHexChars_aux l2 _

theorem fromHexChars_hexByte (b : Nat) (h : b < 256) : fromHexChars (hexByte b) = b := by
  have h1 : b / 16 < 16 := by omega
  have h2 : b % 16 < 16 := by omega
  simp [fromHexChars, hexByte, hexCharVal_hexDigit _ h1, hexCharVal_hexDigit _ h2]
  omega

theorem byteVal_aux (bs : List Nat) : ∀ a : Nat,
    bs.foldl (fun acc b => 256 * acc + b) a = a * 256 ^ bs.length + byteVal bs := by
  induction bs with
  | nil => intro a; simp [byteVal]
  | cons b bs ih =>
    intro a
    have h1 := ih (256 * a + b)
    have h2 := ih (256 * 0 + b)
    simp only [List.foldl_cons, List.length_cons, byteVal] at h1 h2 ⊢
    rw [h1, h2]
    ring

theorem flatten_hexByte_length (bs : List Nat) :
    ((bs.map hexByte).flatten).length = 2 * bs.length := by
  induction bs with
  | nil => rfl
  | cons x xs ih =>
    rw [List.map_cons, List.flatten_cons, List.length_append, ih, List.length_cons]
    simp only [hexByte, List.length_cons, List.length_nil]
    omega

theorem fromHexChars_hexBytes : ∀ bs : List Nat, (∀ b ∈ bs, b < 256) →
    fromHexChars ((bs.map hexByte).flatten) = byteVal bs
  | [], _ => rfl
  | b :: bs, h => by
    have hb : b < 256 := h b (List.mem_cons_self b bs)
    have hrest := fromHexChars_hexBytes bs (fun x hx => h x (List.mem_cons_of_mem b hx))
    have hflat : ((b :: bs).map hexByte).flatten = hexByte b ++ (bs.map hexByte).flatten := by
      simp
    have hbv := byteVal_aux bs (256 * 0 + b)
    have hcons : byteVal (b :: bs) = b * 256 ^ bs.length + byteVal bs := by
      rw [byteVal, List.foldl_cons]
      simpa using hbv
    rw [hflat, fromHexChars_append, fromHexChars_hexByte b hb, hrest,
      flatten_hexByte_length, hcons, pow_mul]
    norm_num

theorem byteVal_toBeBytes (n : Nat) (h : n < 2 ^ 64) : byteVal (toBeBytes n) = n := by
  simp only [toBeBytes, byteVal, List.foldl_cons, List.foldl_nil]
  norm_num
  omega

theorem fromHexChars_hexEncode_toBeBytes (n : Nat) (h : n < 2 ^ 64) :
    fromHexChars (hexEncode (toBeBytes n)).data = n := by
  have : (hexEncode (toBeBytes n)).data = ((toBeBytes n).map hexByte).flatten := rfl
  rw [this, fromHexChars_hexBytes _ (toBeBytes_lt n), byteVal_toBeBytes n h]

theorem fingerprint_lt (hash : Bytes → Nat → Nat) (rs fs : Nat) (data : Bytes)
    (variant : Option String) : fingerprint hash rs fs data variant < 2 ^ 64 := by
  cases variant <;> simp [fingerprint, u64] <;> omega









/-! ### Claim theorems -/

/-- C3: the fingerprint equals the keyed hash of the source bytes under
seed `resizeSeed + formatSeed`; a variant adds (wrapping at the `u64`
width) the keyed hash of the variant's UTF-8 bytes under the same seed;
and the rendering is the 16-character lower-case hexadecimal string of the
big-endian byte representation (it decodes back to the fingerprint). -/
theorem fingerprint_formula_hex (hash : Bytes → Nat → Nat) (rs fs : Nat) (data : Bytes)
    (variant : Option String) :
    fingerprint hash rs fs data none = u64 (hash data (u64 (rs + fs)))
    ∧ (∀ v, fingerprint hash rs fs data (some v)
        = u64 (fingerprint hash rs fs data none + u64 (hash (strBytes v) (u64 (rs + fs)))))
    ∧ (hexEncode (toBeBytes (fingerprint hash rs fs data variant))).length = 16
    ∧ (hexEncode (toBeBytes (fingerprint hash rs fs data variant))).data.all isLowerHexDigit
        = true
    ∧ fromHexChars (hexEncode (toBeBytes (fingerprint hash rs fs data variant))).data
        = fingerprint hash rs fs data variant :=
  ⟨rfl, fun _ => rfl, hexEncode_toBeBytes_length _, hexEncode_toBeBytes_lower _,
    fromHexChars_hexEncode_toBeBytes _ (fingerprint_lt hash rs fs data variant)⟩

/-- C4: recording a `(image, variant, format)` leaf sets exactly that leaf
and leaves the leaf at every other `(image, variant, format)` triple
unchanged; re-recording an existing triple overwrites only that leaf. -/
theorem manifest_record_frame (m : Manifest) (name variant ext path n v e : String) :
    leafLookup (recordLeaf m name variant ext path) name variant ext = some path
    ∧ (¬(n = name ∧ v = variant ∧ e = ext) →
        leafLookup (recordLeaf m name variant ext path) n v e = leafLookup m n v e) := by
  constructor
  · simp [leafLookup, recordLeaf, alLookup_alInsert_self]
  · intro hne
    by_cases hn : n = name
    · subst hn
      by_cases hv : v = variant
      · subst hv
        have he : e ≠ ext := by tauto
        cases hm : alLookup n m with
        | none =>
          simp [leafLookup, recordLeaf, hm, alLookup_alInsert_self,
            alLookup_alInsert_ne e ext _ _ he, alLookup, he]
        | some vs =>
          cases hv2 : alLookup v vs with
          | none =>
            simp [leafLookup, recordLeaf, hm, hv2, alLookup_alInsert_self,
              alLookup_alInsert_ne e ext _ _ he, alLookup, he]
          | some fs =>
            simp [leafLookup, recordLeaf, hm, hv2, alLookup_alInsert_self,
              alLookup_alInsert_ne e ext _ _ he, he]
      · cases hm : alLookup n m with
        | none =>
          simp [leafLookup, recordLeaf, hm, alLookup_alInsert_self,
            alLookup_alInsert_ne v variant _ _ hv, alLookup, hv]
        | some vs =>
          simp [leafLookup, recordLeaf, hm, alLookup_alInsert_self,
            alLookup_alInsert_ne v variant _ _ hv, hv]
    · simp [leafLookup, recordLeaf, alLookup_alInsert_ne n name _ _ hn]

/-- Witness for C4 at a concrete manifest: adding a `jpg` leaf preserves
the previously recorded `png` leaf. -/
theorem manifest_record_frame_witness :
    ¬(("cat" : String) = "cat" ∧ ("thumb" : String) = "thumb" ∧ ("png" : String) = "jpg")
    ∧ leafLookup (recordLeaf (recordLeaf [] "cat" "thumb" "png" "x") "cat" "thumb" "jpg" "y")
        "cat" "thumb" "png"
      = leafLookup (recordLeaf [] "cat" "thumb" "png" "x") "cat" "thumb" "png" :=
  ⟨by decide,
    (manifest_record_frame (recordLeaf [] "cat" "thumb" "png" "x") "cat" "thumb" "jpg" "y"
      "cat" "thumb" "png").2 (by decide)⟩


/-- C5: changing one format's stage seed leaves the fingerprint of every
other format of the same image exactly unchanged (a format's fingerprint
depends only on the resize seed and its own seed). -/
theorem fingerprint_seed_isolation {Image : Type} (w : WimgApi Image) (f g : OutputFormat)
    (n : Nat) (data : Bytes) (variant : Option String) (h : g ≠ f) :
    fingerprint (setFmtSeed w f n).hash (setFmtSeed w f n).resizeSeed
        (fmtSeed (setFmtSeed w f n) g) data variant
      = fingerprint w.hash w.resizeSeed (fmtSeed w g) data variant := by
  have hh : (setFmtSeed w f n).hash = w.hash := by cases f <;> rfl
  have hr : (setFmtSeed w f n).resizeSeed = w.resizeSeed := by cases f <;> rfl
  have hs : fmtSeed (setFmtSeed w f n) g = fmtSeed w g := by
    cases f <;> cases g <;> first | rfl | exact absurd rfl h
  rw [hh, hr, hs]

/-- Witness for C5: bumping the AVIF seed leaves the PNG fingerprint
unchanged. -/
theorem fingerprint_seed_isolation_witness :
    OutputFormat.png ≠ OutputFormat.avif
    ∧ fingerprint (setFmtSeed wC .avif 99).hash (setFmtSeed wC .avif 99).resizeSeed
        (fmtSeed (setFmtSeed wC .avif 99) .png) [9] none
      = fingerprint wC.hash wC.resizeSeed (fmtSeed wC .png) [9] none :=
  ⟨by decide, fingerprint_seed_isolation wC .avif .png 99 [9] none (by decide)⟩

/-- C8: the fingerprint is a pure function of the hash collaborator, the
resize seed, the active format's seed, the source bytes and the variant:
any two invocations agreeing on those return the same value. -/
theorem fingerprint_deterministic {Image1 Image2 : Type} (w1 : WimgApi Image1)
    (w2 : WimgApi Image2) (f : OutputFormat) (data : Bytes) (variant : Option String)
    (hh : w1.hash = w2.hash) (hr : w1.resizeSeed = w2.resizeSeed)
    (hf : fmtSeed w1 f = fmtSeed w2 f) :
    fingerprint w1.hash w1.resizeSeed (fmtSeed w1 f) data variant
      = fingerprint w2.hash w2.resizeSeed (fmtSeed w2 f) data variant := by
  rw [hh, hr, hf]

/-- Witness for C8 at a concrete input. -/
theorem fingerprint_deterministic_witness :
    wC.hash = wC.hash
    ∧ fingerprint wC.hash wC.resizeSeed (fmtSeed wC .png) [9, 9] (some "thumb")
      = fingerprint wC.hash wC.resizeSeed (fmtSeed wC .png) [9, 9] (some "thumb") :=
  ⟨rfl, fingerprint_deterministic wC wC .png [9, 9] (some "thumb") rfl rfl rfl⟩

/-- C9: a run with no output format aborts immediately with no effects,
and a run with a manifest path but no variant name aborts with no effects
before any image is processed. -/
theorem early_validation_aborts {Image : Type} (env : Env) (w : WimgApi Image) (args : Args) :
    (args.format = [] → run env w args = ([], .error .noFormat))
    ∧ (args.manifest.isSome = true → args.variant = none →
        (run env w args).1 = [] ∧ ∃ e, (run env w args).2 = .error e) := by
  constructor
  · intro h
    simp [run, h]
  · intro hm hv
    obtain ⟨mpath, hmp⟩ := Option.isSome_iff_exists.mp hm
    by_cases hf : args.format.isEmpty = true
    · have hrun : run env w args = ([], .error .noFormat) := by simp [run, hf]
      rw [hrun]
      exact ⟨rfl, .noFormat, rfl⟩
    · cases hbase : resolveBase env args with
      | error e =>
        have hrun : run env w args = ([], .error e) := by simp [run, hf, hbase]
        rw [hrun]
        exact ⟨rfl, e, rfl⟩
      | ok base =>
        have hl : loadManifest env args = .error .manifestVariantMissing := by
          simp [loadManifest, hmp, hv]
        have hrun : run env w args = ([], .error .manifestVariantMissing) := by
          simp [run, hf, hbase, hl]
        rw [hrun]
        exact ⟨rfl, .manifestVariantMissing, rfl⟩



/-- C7: manifest loading yields the empty manifest when the file is
absent, the parsed mapping when it exists and parses, and a fatal error
(the run aborts with no effects) when it exists but does not parse. -/
theorem manifest_load_cases {Image : Type} (env : Env) (w : WimgApi Image) (args : Args)
    (path : FsPath) (variant : String)
    (hm : args.manifest = some path) (hv : args.variant = some variant) :
    (env.isFile (absolutize env path).normalize.components = false →
        loadManifest env args = .ok (some ([], variant)))
    ∧ (∀ data m, env.isFile (absolutize env path).normalize.components = true →
        env.readFile (absolutize env path).normalize.components = some data →
        env.parseManifest data = some m →
        loadManifest env args = .ok (some (m, variant)))
    ∧ (∀ data, env.isFile (absolutize env path).normalize.components = true →
        env.readFile (absolutize env path).normalize.components = some data →
        env.parseManifest data = none →
        loadManifest env args = .error .manifestParseFailed
          ∧ (run env w args).1 = [] ∧ ∃ e, (run env w args).2 = .error e) := by
  refine ⟨?_, ?_, ?_⟩
  · intro hf
    simp [loadManifest, hm, hv, hf]
  · intro data m hf hr hp
    simp [loadManifest, hm, hv, hf, hr, hp]
  · intro data hf hr hp
    have hl : loadManifest env args = .error .manifestParseFailed := by
      simp [loadManifest, hm, hv, hf, hr, hp]
    refine ⟨hl, ?_⟩
    by_cases hfe : args.format.isEmpty = true
    · have hrun : run env w args = ([], .error .noFormat) := by simp [run, hfe]
      rw [hrun]
      exact ⟨rfl, .noFormat, rfl⟩
    · cases hbase : resolveBase env args with
      | error e =>
        have hrun : run env w args = ([], .error e) := by simp [run, hfe, hbase]
        rw [hrun]
        exact ⟨rfl, e, rfl⟩
      | ok base =>
        have hrun : run env w args = ([], .error .manifestParseFailed) := by
          simp [run, hfe, hbase, hl]
        rw [hrun]
        exact ⟨rfl, .manifestParseFailed, rfl⟩

/-- Witness for C7: the three loading cases at concrete filesystems. -/
theorem manifest_load_cases_witness :
    loadManifest envC argsM = .ok (some ([], "thumb"))
    ∧ loadManifest envP argsM = .ok (some ([("a", [("b", [("c", "d")])])], "thumb"))
    ∧ (loadManifest envBad argsM = .error .manifestParseFailed
        ∧ (run envBad wC argsM).1 = [] ∧ ∃ e, (run envBad wC argsM).2 = .error e) :=
  ⟨(manifest_load_cases envC wC argsM _ "thumb" rfl rfl).1 (by decide),
    (manifest_load_cases envP wC argsM _ "thumb" rfl rfl).2.1 [123, 125]
      [("a", [("b", [("c", "d")])])] (by decide) (by decide) rfl,
    (manifest_load_cases envBad wC argsM _ "thumb" rfl rfl).2.2 [123, 125]
      (by decide) (by decide) rfl⟩

theorem absolutize_absolute (env : Env) (p : FsPath) (h : env.currentDir.absolute = true) :
    (absolutize env p).absolute = true := by
  by_cases hp : p.absolute = true
  · simp [absolutize, hp]
  · have hp' : p.absolute = false := by simpa using hp
    simp [absolutize, FsPath.join, hp', h]

/-- C1 (amended): input resolution accepts a candidate exactly when it
names an existing file and its joined — unnormalized — component sequence
has the base directory's components as a literal prefix; accepted
candidates resolve to the joined path, whose suffix after the base is the
expected sub-path. (`..` components are not normalized away by the check,
so a traversal whose `..` occurs after the base prefix is accepted even
though its resolved form lies outside the base; see the counterexample.) -/
theorem sandbox_literal_componentwise (env : Env) (base p : FsPath)
    (hcwd : env.currentDir.absolute = true) (hbase : base.absolute = true) :
    (resolveImage env base p = .ok (absolutize env p) ↔
      env.isFile (absolutize env p).normalize.components = true
        ∧ isPre base.components (absolutize env p).components = true)
    ∧ (∀ q, resolveImage env base p = .ok q → q = absolutize env p)
    ∧ (isPre base.components (absolutize env p).components = true →
        base.components ++ ((absolutize env p).stripBase base).components
          = (absolutize env p).components) := by
  have hqa : (absolutize env p).absolute = true := absolutize_absolute env p hcwd
  refine ⟨⟨?_, ?_⟩, ?_, ?_⟩
  · intro h
    by_cases h1 : env.isFile (absolutize env p).normalize.components = true
    · refine ⟨h1, ?_⟩
      by_cases h2 : isPre base.components (absolutize env p).components = true
      · exact h2
      · exfalso
        have h2' : isPre base.components (absolutize env p).components = false := by
          simpa using h2
        have hsw : (absolutize env p).startsWith base = false := by
          simp [FsPath.startsWith, hqa, hbase, h2']
        unfold resolveImage at h
        simp [h1, hsw, hqa] at h
    · exfalso
      have h1' : env.isFile (absolutize env p).normalize.components = false := by
        simpa using h1
      unfold resolveImage at h
      simp [h1'] at h
  · intro ⟨h1, h2⟩
    have hsw : (absolutize env p).startsWith base = true := by
      simp [FsPath.startsWith, hqa, hbase, h2]
    unfold resolveImage
    simp [h1, hsw]
  · intro q h
    unfold resolveImage at h
    split at h
    · simp at h
    · split at h
      · simp at h
      · injection h with h'
        exact h'.symm
  · intro h2
    exact isPre_append_drop _ _ h2

/-- Witness for C1 (amended): the strictly-inside candidate
`photos/cat.png` is accepted and its base-relative suffix is as expected. -/
theorem sandbox_literal_componentwise_witness :
    envC.currentDir.absolute = true
    ∧ resolveImage envC ⟨true, ["work", "photos"]⟩ ⟨false, ["photos", "cat.png"]⟩
        = .ok (absolutize envC ⟨false, ["photos", "cat.png"]⟩)
    ∧ (⟨true, ["work", "photos"]⟩ : FsPath).components
        ++ ((absolutize envC ⟨false, ["photos", "cat.png"]⟩).stripBase
            ⟨true, ["work", "photos"]⟩).components
      = (absolutize envC ⟨false, ["photos", "cat.png"]⟩).components :=
  ⟨rfl,
    ((sandbox_literal_componentwise envC ⟨true, ["work", "photos"]⟩
      ⟨false, ["photos", "cat.png"]⟩ rfl rfl).1).mpr ⟨by decide, by decide⟩,
    (sandbox_literal_componentwise envC ⟨true, ["work", "photos"]⟩
      ⟨false, ["photos", "cat.png"]⟩ rfl rfl).2.2 (by decide)⟩

/-- Counterexample to C1 as stated: with base `/work/photos` equal to the
current directory, the candidate `../outside.png` joins to
`/work/photos/../outside.png`, whose resolved absolute form
`/work/outside.png` lies outside the base; yet resolution accepts it, and
the whole run completes successfully instead of aborting. -/
theorem sandbox_escape_accepted :
    resolveImage envX baseX ⟨false, ["..", "outside.png"]⟩
      = .ok ⟨true, ["work", "photos", "..", "outside.png"]⟩
    ∧ isPre baseX.components
        (FsPath.normalize ⟨true, ["work", "photos", "..", "outside.png"]⟩).components = false
    ∧ (run envX wC argsX).2 = .ok () :=
  ⟨rfl, rfl, rfl⟩

/-! ### Trace lemmas for the processing loop -/

theorem writeStage_events {Image : Type} (env : Env) (w : WimgApi Image) (args : Args)
    (img : Image) (name : String) (ms : Option (Manifest × String)) (f : OutputFormat)
    (outF : FsPath) (evs : List Event) :
    ∀ ev ∈ (writeStage env w args img name ms f outF evs).1,
      ev ∈ evs ∨ ∃ p d, ev = .writeFile p d := by
  intro ev hev
  unfold writeStage at hev
  split at hev
  · exact Or.inl hev
  · split at hev
    · rcases List.mem_append.mp hev with h | h
      · exact Or.inl h
      · simp only [List.mem_singleton] at h
        exact Or.inr ⟨_, _, h⟩
    · exact Or.inl hev

theorem writeStage_ok_none {Image : Type} (env : Env) (w : WimgApi Image) (args : Args)
    (img : Image) (name : String) (f : OutputFormat) (outF : FsPath) (evs : List Event)
    (r : Option (Manifest × String))
    (h : (writeStage env w args img name none f outF evs).2 = .ok r) : r = none := by
  unfold writeStage at h
  split at h
  · simp at h
  · split at h
    · simp at h
      exact h.symm
    · simp at h

theorem writeStage_writeFile {Image : Type} (env : Env) (w : WimgApi Image) (args : Args)
    (img : Image) (name : String) (ms : Option (Manifest × String)) (f : OutputFormat)
    (outF : FsPath) (evs : List Event) (p : FsPath) (d : Bytes)
    (h : Event.writeFile p d ∈ (writeStage env w args img name ms f outF evs).1) :
    Event.writeFile p d ∈ evs ∨ p = outF := by
  unfold writeStage at h
  split at h
  · exact Or.inl h
  · split at h
    · rcases List.mem_append.mp h with h | h
      · exact Or.inl h
      · simp only [List.mem_singleton, Event.writeFile.injEq] at h
        exact Or.inr h.1
    · exact Or.inl h

theorem processFormat_events {Image : Type} (env : Env) (w : WimgApi Image) (args : Args)
    (data : Bytes) (img : Image) (name : String) (outFile : FsPath)
    (ms : Option (Manifest × String)) (f : OutputFormat) :
    ∀ ev ∈ (processFormat env w args data img name outFile ms f).1,
      (∃ p, ev = .mkDirAll p) ∨ ∃ p d, ev = .writeFile p d := by
  intro ev hev
  unfold processFormat at hev
  split at hev
  · rcases writeStage_events env w args img name ms f _ _ ev hev with h | h
    · simp at h
    · exact Or.inr h
  · split at hev
    · rcases writeStage_events env w args img name ms f _ _ ev hev with h | h
      · simp only [List.mem_singleton] at h
        exact Or.inl ⟨_, h⟩
      · exact Or.inr h
    · simp at hev

theorem processFormat_ok_none {Image : Type} (env : Env) (w : WimgApi Image) (args : Args)
    (data : Bytes) (img : Image) (name : String) (outFile : FsPath) (f : OutputFormat)
    (r : Option (Manifest × String))
    (h : (processFormat env w args data img name outFile none f).2 = .ok r) : r = none := by
  unfold processFormat at h
  split at h
  · exact writeStage_ok_none env w args img name f _ _ r h
  · split at h
    · exact writeStage_ok_none env w args img name f _ _ r h
    · simp at h

theorem processFormat_writeFile {Image : Type} (env : Env) (w : WimgApi Image) (args : Args)
    (data : Bytes) (img : Image) (name : String) (outFile : FsPath) (f : OutputFormat)
    (p : FsPath) (d : Bytes)
    (h : Event.writeFile p d ∈ (processFormat env w args data img name outFile none f).1) :
    p = nameFor w.hash w.resizeSeed (fmtSeed w f) data none outFile f.ext := by
  unfold processFormat at h
  split at h
  · rcases writeStage_writeFile env w args img name none f _ _ p d h with h' | h'
    · simp at h'
    · exact h'
  · split at h
    · rcases writeStage_writeFile env w args img name none f _ _ p d h with h' | h'
      · simp at h'
      · exact h'
    · simp at h

theorem processFormats_events {Image : Type} (env : Env) (w : WimgApi Image) (args : Args)
    (data : Bytes) (img : Image) (name : String) (outFile : FsPath) :
    ∀ (fs : List OutputFormat) (ms : Option (Manifest × String)),
      ∀ ev ∈ (processFormats env w args data img name outFile ms fs).1,
        (∃ p, ev = .mkDirAll p) ∨ ∃ p d, ev = .writeFile p d := by
  intro fs
  induction fs with
  | nil =>
    intro ms ev hev
    simp [processFormats] at hev
  | cons f rest ih =>
    intro ms ev hev
    simp only [processFormats] at hev
    rcases hpf : processFormat env w args data img name outFile ms f with ⟨evs, res⟩
    rw [hpf] at hev
    cases res with
    | error e =>
      exact processFormat_events env w args data img name outFile ms f ev
        (by rw [hpf]; exact hev)
    | ok ms' =>
      rcases List.mem_append.mp hev with h | h
      · exact processFormat_events env w args data img name outFile ms f ev
          (by rw [hpf]; exact h)
      · exact ih ms' ev h

theorem processFormats_ok_none {Image : Type} (env : Env) (w : WimgApi Image) (args : Args)
    (data : Bytes) (img : Image) (name : String) (outFile : FsPath) :
    ∀ (fs : List OutputFormat) (r : Option (Manifest × String)),
      (processFormats env w args data img name outFile none fs).2 = .ok r → r = none := by
  intro fs
  induction fs with
  | nil =>
    intro r h
    simp [processFormats] at h
    exact h.symm
  | cons f rest ih =>
    intro r h
    simp only [processFormats] at h
    rcases hpf : processFormat env w args data img name outFile none f with ⟨evs, res⟩
    rw [hpf] at h
    cases res with
    | error e => simp at h
    | ok ms' =>
      have hms' : ms' = none := processFormat_ok_none env w args data img name outFile f ms'
        (by rw [hpf])
      subst hms'
      exact ih r h

theorem processFormats_writeFile {Image : Type} (env : Env) (w : WimgApi Image) (args : Args)
    (data : Bytes) (img : Image) (name : String) (outFile : FsPath) :
    ∀ (fs : List OutputFormat) (p : FsPath) (d : Bytes),
      Event.writeFile p d ∈ (processFormats env w args data img name outFile none fs).1 →
      ∃ f ∈ fs, p = nameFor w.hash w.resizeSeed (fmtSeed w f) data none outFile f.ext := by
  intro fs
  induction fs with
  | nil =>
    intro p d h
    simp [processFormats] at h
  | cons f rest ih =>
    intro p d h
    simp only [processFormats] at h
    rcases hpf : processFormat env w args data img name outFile none f with ⟨evs, res⟩
    rw [hpf] at h
    cases res with
    | error e =>
      exact ⟨f, List.mem_cons_self f rest,
        processFormat_writeFile env w args data img name outFile f p d (by rw [hpf]; exact h)⟩
    | ok ms' =>
      rcases List.mem_append.mp h with h' | h'
      · exact ⟨f, List.mem_cons_self f rest,
          processFormat_writeFile env w args data img name outFile f p d
            (by rw [hpf]; exact h')⟩
      · have hms' : ms' = none := processFormat_ok_none env w args data img name outFile f ms'
          (by rw [hpf])
        subst hms'
        obtain ⟨g, hg, hp⟩ := ih p d h'
        exact ⟨g, List.mem_cons_of_mem f hg, hp⟩

theorem processImage_events {Image : Type} (env : Env) (w : WimgApi Image) (args : Args)
    (base : FsPath) (ms : Option (Manifest × String)) (p : FsPath) :
    ∀ ev ∈ (processImage env w args base ms p).1,
      ev = .resizeCall args.width args.height true
        ∨ (∃ q, ev = .mkDirAll q) ∨ ∃ q d, ev = .writeFile q d := by
  intro ev hev
  unfold processImage at hev
  rcases hf : env.readFile p.normalize.components with _ | data <;> rw [hf] at hev <;> dsimp only at hev
  · simp at hev
  · rcases hd : decodeByExt w p data with e | img <;> rw [hd] at hev <;> dsimp only at hev
    · simp at hev
    · rcases hrz : w.resize img args.width args.height true with e | img2 <;> rw [hrz] at hev <;> dsimp only at hev
      · simp only [List.mem_singleton] at hev
        exact Or.inl hev
      · rcases List.mem_cons.mp hev with h | h
        · exact Or.inl h
        · exact Or.inr (processFormats_events env w args data img2 _ _ args.format ms ev h)

theorem processImage_ok_none {Image : Type} (env : Env) (w : WimgApi Image) (args : Args)
    (base : FsPath) (p : FsPath) (r : Option (Manifest × String))
    (h : (processImage env w args base none p).2 = .ok r) : r = none := by
  unfold processImage at h
  rcases hf : env.readFile p.normalize.components with _ | data <;> rw [hf] at h <;> dsimp only at h
  · simp at h
  · rcases hd : decodeByExt w p data with e | img <;> rw [hd] at h <;> dsimp only at h
    · simp at h
    · rcases hrz : w.resize img args.width args.height true with e | img2 <;> rw [hrz] at h <;> dsimp only at h
      · simp at h
      · exact processFormats_ok_none env w args data img2 _ _ args.format r h

theorem processImage_resize_count {Image : Type} (env : Env) (w : WimgApi Image) (args : Args)
    (base : FsPath) (ms : Option (Manifest × String)) (p : FsPath)
    (r : Option (Manifest × String))
    (h : (processImage env w args base ms p).2 = .ok r) :
    (processImage env w args base ms p).1.countP Event.isResizeCall = 1 := by
  unfold processImage at h ⊢
  rcases hf : env.readFile p.normalize.components with _ | data <;> rw [hf] at h <;>
    dsimp only at h ⊢
  · simp at h
  · rcases hd : decodeByExt w p data with e | img <;> rw [hd] at h <;> dsimp only at h ⊢
    · simp at h
    · rcases hrz : w.resize img args.width args.height true with e | img2 <;> rw [hrz] at h <;>
        dsimp only at h ⊢
      · simp at h
      · rw [List.countP_cons]
        have hz : (processFormats env w args data img2 ((p.stripBase base).withExtension "").render
            (args.outDir.join (p.stripBase base)) ms args.format).1.countP Event.isResizeCall
            = 0 := by
          rw [List.countP_eq_zero]
          intro ev hev
          rcases processFormats_events env w args data img2 _ _ args.format ms ev hev with
            ⟨q, rfl⟩ | ⟨q, d, rfl⟩ <;> simp [Event.isResizeCall]
        rw [hz]
        simp [Event.isResizeCall]

theorem processImage_writeFile {Image : Type} (env : Env) (w : WimgApi Image) (args : Args)
    (base : FsPath) (p : FsPath) (q : FsPath) (d : Bytes)
    (h : Event.writeFile q d ∈ (processImage env w args base none p).1) :
    ∃ data, env.readFile p.normalize.components = some data
      ∧ ∃ f ∈ args.format, q = nameFor w.hash w.resizeSeed (fmtSeed w f) data none
          (args.outDir.join (p.stripBase base)) f.ext := by
  unfold processImage at h
  rcases hf : env.readFile p.normalize.components with _ | data <;> rw [hf] at h <;> dsimp only at h
  · simp at h
  · rcases hd : decodeByExt w p data with e | img <;> rw [hd] at h <;> dsimp only at h
    · simp at h
    · rcases hrz : w.resize img args.width args.height true with e | img2 <;> rw [hrz] at h <;> dsimp only at h
      · simp at h
      · rcases List.mem_cons.mp h with h' | h'
        · simp at h'
        · obtain ⟨f, hfm, hq⟩ := processFormats_writeFile env w args data img2 _ _
            args.format q d h'
          exact ⟨data, rfl, f, hfm, hq⟩

theorem processImages_events {Image : Type} (env : Env) (w : WimgApi Image) (args : Args)
    (base : FsPath) :
    ∀ (ps : List FsPath) (ms : Option (Manifest × String)),
      ∀ ev ∈ (processImages env w args base ms ps).1,
        ev = .resizeCall args.width args.height true
          ∨ (∃ q, ev = .mkDirAll q) ∨ ∃ q d, ev = .writeFile q d := by
  intro ps
  induction ps with
  | nil =>
    intro ms ev hev
    simp [processImages] at hev
  | cons p rest ih =>
    intro ms ev hev
    simp only [processImages] at hev
    rcases hpi : processImage env w args base ms p with ⟨evs, res⟩
    rw [hpi] at hev
    cases res with
    | error e =>
      exact processImage_events env w args base ms p ev (by rw [hpi]; exact hev)
    | ok ms' =>
      rcases List.mem_append.mp hev with h | h
      · exact processImage_events env w args base ms p ev (by rw [hpi]; exact h)
      · exact ih ms' ev h

theorem processImages_ok_none {Image : Type} (env : Env) (w : WimgApi Image) (args : Args)
    (base : FsPath) :
    ∀ (ps : List FsPath) (r : Option (Manifest × String)),
      (processImages env w args base none ps).2 = .ok r → r = none := by
  intro ps
  induction ps with
  | nil =>
    intro r h
    simp [processImages] at h
    exact h.symm
  | cons p rest ih =>
    intro r h
    simp only [processImages] at h
    rcases hpi : processImage env w args base none p with ⟨evs, res⟩
    rw [hpi] at h
    cases res with
    | error e => simp at h
    | ok ms' =>
      have hms' : ms' = none := processImage_ok_none env w args base p ms' (by rw [hpi])
      subst hms'
      exact ih r h

theorem processImages_resize_count {Image : Type} (env : Env) (w : WimgApi Image) (args : Args)
    (base : FsPath) :
    ∀ (ps : List FsPath) (ms : Option (Manifest × String)) (r : Option (Manifest × String)),
      (processImages env w args base ms ps).2 = .ok r →
      (processImages env w args base ms ps).1.countP Event.isResizeCall = ps.length := by
  intro ps
  induction ps with
  | nil =>
    intro ms r _
    simp [processImages]
  | cons p rest ih =>
    intro ms r h
    simp only [processImages] at h ⊢
    rcases hpi : processImage env w args base ms p with ⟨evs, res⟩
    rw [hpi] at h
    cases res with
    | error e => simp at h
    | ok ms' =>
      dsimp only at h ⊢
      rw [List.countP_append]
      have h1 : evs.countP Event.isResizeCall = 1 := by
        have hc := processImage_resize_count env w args base ms p ms' (by rw [hpi])
        rw [hpi] at hc
        exact hc
      rw [h1, ih ms' r h, List.length_cons]
      omega

theorem processImages_writeFile {Image : Type} (env : Env) (w : WimgApi Image) (args : Args)
    (base : FsPath) :
    ∀ (ps : List FsPath) (q : FsPath) (d : Bytes),
      Event.writeFile q d ∈ (processImages env w args base none ps).1 →
      ∃ p ∈ ps, ∃ data, env.readFile p.normalize.components = some data
        ∧ ∃ f ∈ args.format, q = nameFor w.hash w.resizeSeed (fmtSeed w f) data none
            (args.outDir.join (p.stripBase base)) f.ext := by
  intro ps
  induction ps with
  | nil =>
    intro q d h
    simp [processImages] at h
  | cons p rest ih =>
    intro q d h
    simp only [processImages] at h
    rcases hpi : processImage env w args base none p with ⟨evs, res⟩
    rw [hpi] at h
    cases res with
    | error e =>
      obtain ⟨data, hf, f, hfm, hq⟩ := processImage_writeFile env w args base p q d
        (by rw [hpi]; exact h)
      exact ⟨p, List.mem_cons_self p rest, data, hf, f, hfm, hq⟩
    | ok ms' =>
      rcases List.mem_append.mp h with h' | h'
      · obtain ⟨data, hf, f, hfm, hq⟩ := processImage_writeFile env w args base p q d
          (by rw [hpi]; exact h')
        exact ⟨p, List.mem_cons_self p rest, data, hf, f, hfm, hq⟩
      · have hms' : ms' = none := processImage_ok_none env w args base p ms' (by rw [hpi])
        subst hms'
        obtain ⟨p', hp', rest'⟩ := ih q d h'
        exact ⟨p', List.mem_cons_of_mem p hp', rest'⟩

theorem resolveImages_length (env : Env) (base : FsPath) :
    ∀ (ps qs : List FsPath), resolveImages env base ps = .ok qs → qs.length = ps.length := by
  intro ps
  induction ps with
  | nil =>
    intro qs h
    simp [resolveImages] at h
    subst h
    rfl
  | cons p rest ih =>
    intro qs h
    simp only [resolveImages] at h
    rcases hq : resolveImage env base p with e | q <;> rw [hq] at h
    · simp at h
    · rcases hr : resolveImages env base rest with e | qs' <;> rw [hr] at h
      · simp at h
      · simp at h
        subst h
        simp [ih qs' hr]

/-- Exhaustive description of a run's outcome: an early abort with an
empty trace, or the processing loop's trace followed by at most one final
manifest write. -/
theorem run_cases {Image : Type} (env : Env) (w : WimgApi Image) (args : Args) :
    (∃ e, run env w args = ([], .error e))
    ∨ ∃ base ms images,
        resolveBase env args = .ok base
        ∧ loadManifest env args = .ok ms
        ∧ resolveImages env base args.images = .ok images
        ∧ ((∃ e, (processImages env w args base ms images).2 = .error e
              ∧ run env w args = ((processImages env w args base ms images).1, .error e))
          ∨ ((∃ msF, (processImages env w args base ms images).2 = .ok msF)
              ∧ (run env w args = ((processImages env w args base ms images).1, .ok ())
                ∨ run env w args
                    = ((processImages env w args base ms images).1, .error .manifestCreateFailed)
                ∨ ∃ mpath m, args.manifest = some mpath
                    ∧ run env w args = ((processImages env w args base ms images).1
                        ++ [Event.writeManifest mpath m], .ok ())))) := by
  by_cases hf : args.format.isEmpty = true
  · exact Or.inl ⟨.noFormat, by simp [run, hf]⟩
  · cases hbase : resolveBase env args with
    | error e => exact Or.inl ⟨e, by simp [run, hf, hbase]⟩
    | ok base =>
      cases hl : loadManifest env args with
      | error e => exact Or.inl ⟨e, by simp [run, hf, hbase, hl]⟩
      | ok ms =>
        cases hri : resolveImages env base args.images with
        | error e => exact Or.inl ⟨e, by simp [run, hf, hbase, hl, hri]⟩
        | ok images =>
          by_cases hne : images.isEmpty = true
          · exact Or.inl ⟨.noImages, by simp [run, hf, hbase, hl, hri, hne]⟩
          · rcases hpis : processImages env w args base ms images with ⟨evs, res⟩
            cases res with
            | error e =>
              refine Or.inr ⟨base, ms, images, rfl, rfl, hri, Or.inl ⟨e, by rw [hpis], ?_⟩⟩
              simp [run, hf, hbase, hl, hri, hne, hpis]
            | ok msF =>
              refine Or.inr ⟨base, ms, images, rfl, rfl, hri, Or.inr ⟨⟨msF, by rw [hpis]⟩, ?_⟩⟩
              match hmsF : msF with
              | none =>
                refine Or.inl ?_
                simp [run, hf, hbase, hl, hri, hne, hpis]
              | some mv =>
                cases hman : args.manifest with
                | none =>
                  refine Or.inl ?_
                  simp [run, hf, hbase, hl, hri, hne, hpis, hman]
                | some mpath =>
                  by_cases hcr : env.createOk (absolutize env mpath) = true
                  · refine Or.inr (Or.inr ⟨mpath, mv.1, rfl, ?_⟩)
                    simp [run, hf, hbase, hl, hri, hne, hpis, hman, hcr]
                  · refine Or.inr (Or.inl ?_)
                    simp [run, hf, hbase, hl, hri, hne, hpis, hman, hcr]

/-- C6: in every run the manifest is written at most once, any manifest
write is the final effect of the run (after all image and format
processing), and a run that ends in an error performed no manifest write
at all. -/
theorem manifest_saved_once_at_end {Image : Type} (env : Env) (w : WimgApi Image)
    (args : Args) :
    (∀ ev ∈ (run env w args).1.dropLast, ev.isManifestWrite = false)
    ∧ (run env w args).1.countP Event.isManifestWrite ≤ 1
    ∧ (∀ e, (run env w args).2 = .error e →
        ∀ ev ∈ (run env w args).1, ev.isManifestWrite = false) := by
  have hpis_no : ∀ base ms images, ∀ ev ∈ (processImages env w args base ms images).1,
      ev.isManifestWrite = false := by
    intro base ms images ev hev
    rcases processImages_events env w args base images ms ev hev with rfl | ⟨q, rfl⟩ | ⟨q, d, rfl⟩
      <;> rfl
  have hpis_cnt : ∀ base ms images,
      (processImages env w args base ms images).1.countP Event.isManifestWrite = 0 := by
    intro base ms images
    rw [List.countP_eq_zero]
    intro a ha
    simp [hpis_no base ms images a ha]
  rcases run_cases env w args with ⟨e, hrun⟩ | ⟨base, ms, images, hbase, hl, hri, hrest⟩
  · rw [hrun]
    exact ⟨by simp, by simp, by simp⟩
  · rcases hrest with ⟨e, hpe, hrun⟩ | ⟨⟨msF, hpok⟩, hrun | hrun | ⟨mpath, m, hman, hrun⟩⟩
    · rw [hrun]
      refine ⟨?_, ?_, ?_⟩
      · intro ev hev
        exact hpis_no base ms images ev (List.dropLast_subset _ hev)
      · dsimp only
        rw [hpis_cnt base ms images]
        omega
      · intro e' _ ev hev
        exact hpis_no base ms images ev hev
    · rw [hrun]
      refine ⟨?_, ?_, ?_⟩
      · intro ev hev
        exact hpis_no base ms images ev (List.dropLast_subset _ hev)
      · dsimp only
        rw [hpis_cnt base ms images]
        omega
      · intro e' he'
        simp at he'
    · rw [hrun]
      refine ⟨?_, ?_, ?_⟩
      · intro ev hev
        exact hpis_no base ms images ev (List.dropLast_subset _ hev)
      · dsimp only
        rw [hpis_cnt base ms images]
        omega
      · intro e' _ ev hev
        exact hpis_no base ms images ev hev
    · rw [hrun]
      refine ⟨?_, ?_, ?_⟩
      · intro ev hev
        dsimp only at hev
        rw [List.dropLast_concat] at hev
        exact hpis_no base ms images ev hev
      · dsimp only
        rw [List.countP_append, hpis_cnt base ms images]
        simp [Event.isManifestWrite]
      · intro e' he'
        simp at he'

/-- C10: every resize invocation in any run uses exactly the requested
width and height with the preserve-aspect-ratio flag hard-coded to
`true`, and a successful run invokes resize exactly once per input
image. -/
theorem resize_once_aspect_preserving {Image : Type} (env : Env) (w : WimgApi Image)
    (args : Args) :
    (∀ wd ht a, Event.resizeCall wd ht a ∈ (run env w args).1 →
        wd = args.width ∧ ht = args.height ∧ a = true)
    ∧ ((run env w args).2 = .ok () →
        (run env w args).1.countP Event.isResizeCall = args.images.length) := by
  constructor
  · intro wd ht a hev
    rcases run_cases env w args with ⟨e, hrun⟩ | ⟨base, ms, images, hbase, hl, hri, hrest⟩
    · rw [hrun] at hev
      simp at hev
    · have hres : Event.resizeCall wd ht a ∈ (processImages env w args base ms images).1 →
          wd = args.width ∧ ht = args.height ∧ a = true := by
        intro hmem
        rcases processImages_events env w args base images ms _ hmem with h | ⟨q, h⟩ | ⟨q, d, h⟩
        · injection h with h1 h2 h3
          exact ⟨h1, h2, h3⟩
        · simp at h
        · simp at h
      rcases hrest with ⟨e, hpe, hrun⟩ | ⟨⟨msF, hpok⟩, hrun | hrun | ⟨mpath, m, hman, hrun⟩⟩
      · rw [hrun] at hev
        exact hres hev
      · rw [hrun] at hev
        exact hres hev
      · rw [hrun] at hev
        exact hres hev
      · rw [hrun] at hev
        dsimp only at hev
        rcases List.mem_append.mp hev with h | h
        · exact hres h
        · simp at h
  · intro hok
    rcases run_cases env w args with ⟨e, hrun⟩ | ⟨base, ms, images, hbase, hl, hri, hrest⟩
    · rw [hrun] at hok
      simp at hok
    · have hlen := resolveImages_length env base args.images images hri
      rcases hrest with ⟨e, hpe, hrun⟩ | ⟨⟨msF, hpok⟩, hrun | hrun | ⟨mpath, m, hman, hrun⟩⟩
      · rw [hrun] at hok
        simp at hok
      · rw [hrun]
        dsimp only
        rw [processImages_resize_count env w args base images ms msF hpok]
        exact hlen
      · rw [hrun] at hok
        simp at hok
      · rw [hrun]
        dsimp only
        rw [List.countP_append, processImages_resize_count env w args base images ms msF hpok]
        simp [Event.isResizeCall, hlen]

theorem noDot_append (a b : String) : noDot (a ++ b) = (noDot a && noDot b) := by
  simp [noDot, String.data_append a b, List.all_append]

theorem withExtension_lastComponent (p : FsPath) (X e : String) (hX : noDot X = true)
    (he : e ≠ "") :
    ((p.withFileName X).withExtension e).lastComponent = X ++ "." ++ e := by
  have hlast : (p.withFileName X).lastComponent = X := by
    simp [FsPath.lastComponent, FsPath.withFileName, List.getLast?_concat]
  have hne' : (p.withFileName X).components.isEmpty = false := by
    simp [FsPath.withFileName]
  simp [FsPath.withExtension, hne', he, hlast, fileStem_of_noDot X hX,
    FsPath.lastComponent, FsPath.withFileName, List.getLast?_concat]

/-- C2 (amended): in simple mode (no manifest) every output file is
written under the output directory at the source's base-relative path,
but with the fingerprint embedded in the file name exactly as in manifest
mode: appending `-<fingerprint-hex>` to the stem and then setting the
format extension, which for dot-free stems yields
`<stem>-<fingerprint-hex>.<ext>`, not `<stem>.<ext>`. -/
theorem output_name_embeds_fingerprint {Image : Type} (env : Env) (w : WimgApi Image)
    (args : Args) :
    (args.manifest = none →
      ∀ p d, Event.writeFile p d ∈ (run env w args).1 →
        ∃ base images, resolveBase env args = .ok base
          ∧ resolveImages env base args.images = .ok images
          ∧ ∃ q ∈ images, ∃ data, env.readFile q.normalize.components = some data
              ∧ ∃ f ∈ args.format,
                p = nameFor w.hash w.resizeSeed (fmtSeed w f) data none
                    (args.outDir.join (q.stripBase base)) f.ext)
    ∧ (∀ hash rs fsd data outFile e, noDot (fileStem outFile.lastComponent) = true → e ≠ "" →
        (nameFor hash rs fsd data none outFile e).lastComponent
          = fileStem outFile.lastComponent ++ "-"
            ++ hexEncode (toBeBytes (fingerprint hash rs fsd data none)) ++ "." ++ e) := by
  constructor
  · intro hman p d hev
    rcases run_cases env w args with ⟨e, hrun⟩ | ⟨base, ms, images, hbase, hl, hri, hrest⟩
    · rw [hrun] at hev
      simp at hev
    · have hmsnone : ms = none := by
        rw [loadManifest, hman] at hl
        simp at hl
        exact hl.symm
      subst hmsnone
      rcases hrest with ⟨e, hpe, hrun⟩ | ⟨⟨msF, hpok⟩, hrun | hrun | ⟨mpath, m, hman2, hrun⟩⟩
      · rw [hrun] at hev
        obtain ⟨q, hq, data, hf, f, hfm, hp⟩ := processImages_writeFile env w args base
          images p d hev
        exact ⟨base, images, hbase, hri, q, hq, data, hf, f, hfm, hp⟩
      · rw [hrun] at hev
        obtain ⟨q, hq, data, hf, f, hfm, hp⟩ := processImages_writeFile env w args base
          images p d hev
        exact ⟨base, images, hbase, hri, q, hq, data, hf, f, hfm, hp⟩
      · rw [hrun] at hev
        obtain ⟨q, hq, data, hf, f, hfm, hp⟩ := processImages_writeFile env w args base
          images p d hev
        exact ⟨base, images, hbase, hri, q, hq, data, hf, f, hfm, hp⟩
      · rw [hman] at hman2
        cases hman2
  · intro hash rs fsd data outFile e hnd hne
    have hX : noDot (fileStem outFile.lastComponent ++ "-"
        ++ hexEncode (toBeBytes (fingerprint hash rs fsd data none))) = true := by
      rw [noDot_append, noDot_append, hnd, hexEncode_toBeBytes_noDot]
      rfl
    have h := withExtension_lastComponent outFile (fileStem outFile.lastComponent ++ "-"
      ++ hexEncode (toBeBytes (fingerprint hash rs fsd data none))) e hX hne
    simpa [nameFor] using h

/-- Witness for C2 (amended): the simple-mode run on `photos/cat.png`
writes exactly the fingerprint-bearing name. -/
theorem output_name_embeds_fingerprint_witness :
    argsC.manifest = none
    ∧ Event.writeFile ⟨false, ["dist", "cat-0000000000000000.png"]⟩ [1, 2]
        ∈ (run envC wC argsC).1
    ∧ (∃ base images, resolveBase envC argsC = .ok base
        ∧ resolveImages envC base argsC.images = .ok images
        ∧ ∃ q ∈ images, ∃ data, envC.readFile q.normalize.components = some data
            ∧ ∃ f ∈ argsC.format,
              FsPath.mk false ["dist", "cat-0000000000000000.png"]
                = nameFor wC.hash wC.resizeSeed (fmtSeed wC f) data none
                    (argsC.outDir.join (q.stripBase base)) f.ext) :=
  ⟨rfl, by decide,
    (output_name_embeds_fingerprint envC wC argsC).1 rfl
      ⟨false, ["dist", "cat-0000000000000000.png"]⟩ [1, 2] (by decide)⟩

/-- Counterexample to C2 as stated: in the simple-mode run on
`photos/cat.png` (end-to-end scenario 1) the single written output is
`dist/cat-0000000000000000.png` — the fingerprint hex is embedded — and
not `dist/cat.png` as the claim requires. -/
theorem simple_mode_name_fingerprint_cex :
    argsC.manifest = none
    ∧ (run envC wC argsC).1.filterMap
        (fun ev => match ev with | Event.writeFile p _ => some p | _ => none)
      = [⟨false, ["dist", "cat-0000000000000000.png"]⟩]
    ∧ ("cat-0000000000000000.png" : String) ≠ "cat.png" :=
  ⟨rfl, rfl, by decide⟩

/-- Witness for C6: in the successful manifest-mode run every
non-final event is not a manifest write, and the no-format aborting run
performs no manifest write. -/
theorem manifest_saved_once_at_end_witness :
    (Event.mkDirAll ⟨false, ["dist"]⟩ ∈ (run envC wC argsM).1.dropLast
      ∧ (Event.mkDirAll ⟨false, ["dist"]⟩).isManifestWrite = false)
    ∧ ((run envC wC argsNoFmt).2 = .error .noFormat
      ∧ ∀ ev ∈ (run envC wC argsNoFmt).1, ev.isManifestWrite = false) :=
  ⟨⟨by decide, (manifest_saved_once_at_end envC wC argsM).1 _ (by decide)⟩,
    ⟨rfl, (manifest_saved_once_at_end envC wC argsNoFmt).2.2 .noFormat rfl⟩⟩

/-- Witness for C10: the concrete simple-mode run resizes once with
100x100 and aspect preservation. -/
theorem resize_once_aspect_preserving_witness :
    Event.resizeCall 100 100 true ∈ (run envC wC argsC).1
    ∧ (100 = argsC.width ∧ 100 = argsC.height ∧ true = true)
    ∧ ((run envC wC argsC).2 = .ok ()
      ∧ (run envC wC argsC).1.countP Event.isResizeCall = argsC.images.length) :=
  ⟨by decide, (resize_once_aspect_preserving envC wC argsC).1 100 100 true (by decide),
    ⟨rfl, (resize_once_aspect_preserving envC wC argsC).2 rfl⟩⟩

/-- Witness for C9 at concrete argument vectors. -/
theorem early_validation_aborts_witness :
    (argsNoFmt.format = [] ∧ run envC wC argsNoFmt = ([], .error .noFormat))
    ∧ (argsNoVar.manifest.isSome = true ∧ argsNoVar.variant = none
        ∧ (run envC wC argsNoVar).1 = [] ∧ ∃ e, (run envC wC argsNoVar).2 = .error e) :=
  ⟨⟨rfl, (early_validation_aborts envC wC argsNoFmt).1 rfl⟩,
    ⟨rfl, rfl, (early_validation_aborts envC wC argsNoVar).2 rfl rfl⟩⟩

end WCli
